import Mathlib

/-!
Verification of the interactive process assertion harness of check50.

The repository sources available are `src/check50/__main__.py` (the command
line entry point) and `src/tests/api_tests.py` (the tests of the assertion
facade). The facade itself (`check50/api.py`: `Process`, `run`, `stdin`,
`stdout`, `exit`, `kill`, `reject`) is not present, so the harness below is
modelled from the specification, and the claims about the facade are settled
against that model. The argument handling of `main` is embedded directly from
`src/check50/__main__.py`.

Text is modelled as `List Char`; time is abstracted away by recording, in the
process state, the output the child will still produce of its own accord
within any timeout window (`pending`) and the exit code with which it will
exit of its own accord (`exitsWith`, `none` when it keeps waiting for input).
A bounded wait then amounts to delivering `pending` into the buffer: the
child produced new output within the window exactly when `pending` was
nonempty or undelivered bytes were already buffered past the cursor.
-/

namespace Check50

/-- Modelled from the spec: lifecycle state of a spawned child process
(`RUNNING`, `EXITED(code)`, `KILLED`). -/
inductive ProcState
  | running
  | exited (code : Nat)
  | killed
deriving DecidableEq

/-- Modelled from the spec: the `Process` object of the missing assertion
facade (`check50/api.py`). `buffer` holds all bytes received so far
(append-only), `cursor` the offset of already-consumed output, `pending` the
bytes the child will still write of its own accord within a timeout window,
`exitsWith` the code the child will exit with of its own accord (`none` when
it keeps running or waits for input), `inputLog` the lines written to its
input channel. -/
structure Process where
  buffer : List Char
  cursor : Nat
  pending : List Char
  exitsWith : Option Nat
  state : ProcState
  inputLog : List (List Char)
deriving DecidableEq

/-- Modelled from the spec: the uniform failure signal of the facade, with
its structured payload of expected value, actual observed output, and exit
codes when relevant. -/
structure AssertionFailure where
  rationale : String
  expected : Option (List Char)
  actual : Option (List Char)
  expectedCode : Option Nat
  actualCode : Option Nat
deriving DecidableEq

/-- An `AssertionFailure` carrying only a rationale. -/
def mkFailure (r : String) : AssertionFailure :=
  ⟨r, none, none, none, none⟩

/-- Modelled from the spec: `spawn`/`run` produces a fresh `RUNNING` process
with an empty buffer and cursor 0; `out` is the output the child will write
of its own accord, `code` the exit code it will then exit with (`none` when
it waits for input instead). -/
def spawnProcess (out : List Char) (code : Option Nat) : Process :=
  ⟨[], 0, out, code, ProcState.running, []⟩

/-- Deliver the child's pending output into the append-only buffer: the
effect of letting a bounded wait elapse. -/
def deliver (p : Process) : Process :=
  { p with buffer := p.buffer ++ p.pending, pending := [] }

/-- The unconsumed tail of the output buffer, past the cursor. -/
def unread (p : Process) : List Char :=
  p.buffer.drop p.cursor

/-- A waiting call observes the child's autonomous exit once all its output
has been delivered. -/
def observeExit (p : Process) : Process :=
  match p.state, p.exitsWith with
  | ProcState.running, some c => { p with state := ProcState.exited c }
  | _, _ => p

/-- Modelled from the spec: `awaitOutput(process, timeout)` returns whatever
unconsumed text is available after the wait (possibly empty) and advances
the cursor to the end of what it returns. -/
def awaitOutput (p : Process) : List Char × Process :=
  (unread (observeExit (deliver p)),
   { observeExit (deliver p) with cursor := (observeExit (deliver p)).buffer.length })

/-- Modelled from the spec: `hasPendingOutput(process, timeout)` — true
exactly when an unconsumed byte is available within the window, without
consuming the cursor. -/
def hasPendingOutput (p : Process) : Bool :=
  decide (p.cursor < p.buffer.length) || !p.pending.isEmpty

/-- One atom of a compiled pattern: a literal character or the wildcard. -/
inductive PatAtom
  | lit (c : Char)
  | anyChar
deriving DecidableEq

/-- Modelled from the spec: compiling an expectation string as a pattern;
`.` becomes the wildcard, every other character matches literally. -/
def compilePattern : List Char → List PatAtom
  | [] => []
  | c :: cs => (if c = '.' then PatAtom.anyChar else PatAtom.lit c) :: compilePattern cs

/-- Whether one pattern atom matches one character; the wildcard is
line-anchored and does not cross a newline. -/
def atomMatches : PatAtom → Char → Bool
  | PatAtom.lit d, c => c = d
  | PatAtom.anyChar, c => c ≠ '\n'

/-- Span (number of characters) consumed by a pattern matching at the start
of the text, `none` when it does not match there. -/
def patMatch : List PatAtom → List Char → Option Nat
  | [], _ => some 0
  | _ :: _, [] => none
  | a :: as, c :: cs =>
      if atomMatches a c then (patMatch as cs).map (fun n => n + 1) else none

/-- Span consumed by a literal expectation at the start of the text: its
length when it is an exact prefix, `none` otherwise. -/
def litSpan : List Char → List Char → Option Nat
  | [], _ => some 0
  | _ :: _, [] => none
  | c :: cs, d :: ds =>
      if c = d then (litSpan cs ds).map (fun n => n + 1) else none

/-- Matched span of an expectation against the unconsumed tail, in regex or
literal mode. -/
def matchSpan (rx : Bool) (e t : List Char) : Option Nat :=
  if rx then patMatch (compilePattern e) t else litSpan e t

/-- Modelled from the spec: `match(process, expectation, mode, timeout)` —
awaits output, then succeeds exactly when the expectation matches starting
at the cursor position, advancing the cursor past the matched span only; on
failure it raises `AssertionFailure` carrying the expectation and whatever
text had accumulated, leaving the cursor where it was. -/
def matchOutput (p : Process) (e : List Char) (rx : Bool) :
    Except AssertionFailure (List Char) × Process :=
  match matchSpan rx e (unread (deliver p)) with
  | some n =>
      (Except.ok ((unread (deliver p)).take n),
       { deliver p with cursor := (deliver p).cursor + n })
  | none =>
      (Except.error ⟨"did not find expected output", some e, some (unread (deliver p)), none, none⟩,
       deliver p)

/-- Modelled from the spec: the facade operation `stdout` — with no
expectation it behaves as `awaitOutput` (no failure on empty result), with
an expectation it delegates to `match`. -/
def stdout (p : Process) (e : Option (List Char)) (rx : Bool) :
    Except AssertionFailure (List Char) × Process :=
  match e with
  | none => (Except.ok (awaitOutput p).1, (awaitOutput p).2)
  | some exp => matchOutput p exp rx

/-- Modelled from the spec: the facade operation `stdin` — when a prompt is
expected it first requires `hasPendingOutput`, failing with "expected a
prompt" and writing nothing otherwise; then it appends the newline-terminated
line to the input channel, failing if the channel is closed. -/
def stdin (p : Process) (line : List Char) (expectPrompt : Bool) :
    Except AssertionFailure Unit × Process :=
  if expectPrompt && !hasPendingOutput p then
    (Except.error (mkFailure "expected a prompt"), p)
  else if p.state = ProcState.running then
    (Except.ok (), { p with inputLog := p.inputLog ++ [line ++ ['\n']] })
  else
    (Except.error (mkFailure "closed channel"), p)

/-- Modelled from the spec: `waitExit(process, timeout)` — blocks until the
process transitions to `EXITED`, returning its exit code, or fails with
"process did not exit" when the window elapses, leaving the state intact. -/
def waitExit (p : Process) : Except AssertionFailure Nat × Process :=
  match p.state with
  | ProcState.exited c => (Except.ok c, p)
  | ProcState.killed => (Except.error (mkFailure "process did not exit"), p)
  | ProcState.running =>
      match p.exitsWith with
      | some c => (Except.ok c, { deliver p with state := ProcState.exited c })
      | none => (Except.error (mkFailure "process did not exit"), p)

/-- Modelled from the spec: the facade operation `exit` — waits for the
process to exit; with a code it asserts the actual code equals it, the
failure payload carrying both; without a code it returns the actual exit
code without judgment. -/
def exitCheck (p : Process) (code : Option Nat) :
    Except AssertionFailure Nat × Process :=
  (match (waitExit p).1, code with
   | Except.error f, _ => Except.error f
   | Except.ok actual, none => Except.ok actual
   | Except.ok actual, some c =>
       if actual = c then Except.ok actual
       else Except.error ⟨"exited with wrong code", none, none, some c, some actual⟩,
   (waitExit p).2)

/-- Modelled from the spec: `kill(process)` — sends a termination signal;
idempotent, a no-op on an already-terminated process, never an error. -/
def kill (p : Process) : Process :=
  match p.state with
  | ProcState.running => { p with state := ProcState.killed }
  | _ => p

/-- Modelled from the spec: the facade operation `reject` — asserts that
within a short timeout no new output has arrived past the cursor, raising
`AssertionFailure` ("expected no output") if output does appear in that
window; the peek is not destructive, so the cursor is left in place. -/
def reject (p : Process) : Except AssertionFailure Unit × Process :=
  if hasPendingOutput p then
    (Except.error ⟨"expected no output", none, some (unread (deliver p)), none, none⟩, deliver p)
  else
    (Except.ok (), p)

/-- One facade operation, for stating invariants over arbitrary call
sequences. -/
inductive FacadeOp
  | stdinOp (line : List Char) (prompt : Bool)
  | stdoutOp (e : Option (List Char)) (rx : Bool)
  | exitOp (code : Option Nat)
  | killOp
  | rejectOp
deriving DecidableEq

/-- The process state after one facade operation, whether or not the
operation raised. -/
def applyOp (p : Process) : FacadeOp → Process
  | FacadeOp.stdinOp l pr => (stdin p l pr).2
  | FacadeOp.stdoutOp e rx => (stdout p e rx).2
  | FacadeOp.exitOp c => (exitCheck p c).2
  | FacadeOp.killOp => kill p
  | FacadeOp.rejectOp => (reject p).2

/-- The process state after a sequence of facade operations. -/
def runOps (p : Process) (ops : List FacadeOp) : Process :=
  ops.foldl applyOp p

/-- Run a sequence of literal-mode `stdout` expectations; `some` of the
consumed spans with the final process when every call succeeds, `none` as
soon as one fails. -/
def consumeAll : Process → List (List Char) → Option (List (List Char) × Process)
  | p, [] => some ([], p)
  | p, e :: es =>
      match stdout p (some e) false with
      | (Except.ok t, q) =>
          match consumeAll q es with
          | some (ts, r) => some (t :: ts, r)
          | none => none
      | (Except.error _, _) => none

/-- The command-line flags of `main` relevant to choosing the execution
path (src/check50/__main__.py, argument parsing in `main`). -/
structure Args where
  dev : Bool
  offline : Bool
  localFlag : Bool
  verbose : Bool
  log : Bool
deriving DecidableEq

/-- The argument normalization `main` performs after parsing
(src/check50/__main__.py lines 269-283): `args.local = True`
unconditionally, then `--dev` implies `--offline` and `--verbose`,
`--offline` implies `--local`, and `--verbose` implies `--log`. -/
def normalizeArgs (a : Args) : Args :=
  let a1 := { a with localFlag := true }
  let a2 := if a1.dev then { a1 with offline := true, verbose := true } else a1
  let a3 := if a2.offline then { a2 with localFlag := true } else a2
  if a3.verbose then { a3 with log := true } else a3

/-- The two execution paths of `main`: the local checking branch and the
remote branch that raises `NotImplementedError`
(src/check50/__main__.py lines 294 and 355-359). -/
inductive ExecPath
  | localChecks
  | remoteChecks
deriving DecidableEq

/-- The branch `main` takes at `if args.local:`
(src/check50/__main__.py line 294). -/
def chooseExecPath (a : Args) : ExecPath :=
  if a.localFlag then ExecPath.localChecks else ExecPath.remoteChecks

/-- Sample process for witnesses: a child that writes nothing and waits for
input. -/
def procSilent : Process :=
  spawnProcess [] none

/-- Sample process for witnesses: a child that writes `foo` and a newline,
then waits for input. -/
def procFoo : Process :=
  spawnProcess ['f', 'o', 'o', '\n'] none

/-- Sample process for witnesses: a child that writes nothing and exits
with code 1. -/
def procExit1 : Process :=
  spawnProcess [] (some 1)

/-- Sample process for witnesses: a process already exited with code 0. -/
def procDone : Process :=
  ⟨['f'], 1, [], some 0, ProcState.exited 0, []⟩

/-- Sample operation sequence for witnesses. -/
def opsSample : List FacadeOp :=
  [FacadeOp.stdoutOp (some ['f', 'o']) true, FacadeOp.rejectOp,
   FacadeOp.stdinOp ['b', 'a', 'r'] false, FacadeOp.exitOp (some 0), FacadeOp.killOp]

@[simp] theorem deliver_buffer (p : Process) : (deliver p).buffer = p.buffer ++ p.pending := rfl

@[simp] theorem deliver_cursor (p : Process) : (deliver p).cursor = p.cursor := rfl

@[simp] theorem deliver_pending (p : Process) : (deliver p).pending = [] := rfl

@[simp] theorem deliver_state (p : Process) : (deliver p).state = p.state := rfl

@[simp] theorem deliver_exitsWith (p : Process) : (deliver p).exitsWith = p.exitsWith := rfl

@[simp] theorem observeExit_buffer (p : Process) : (observeExit p).buffer = p.buffer := by
  unfold observeExit
  split <;> rfl

@[simp] theorem observeExit_cursor (p : Process) : (observeExit p).cursor = p.cursor := by
  unfold observeExit
  split <;> rfl

@[simp] theorem observeExit_pending (p : Process) : (observeExit p).pending = p.pending := by
  unfold observeExit
  split <;> rfl

theorem hasPendingOutput_iff (p : Process) :
    hasPendingOutput p = true ↔ (p.cursor < p.buffer.length ∨ p.pending ≠ []) := by
  simp [hasPendingOutput, List.isEmpty_iff]

theorem patMatch_le :
    ∀ (pat : List PatAtom) (t : List Char) (n : Nat), patMatch pat t = some n → n ≤ t.length := by
  intro pat
  induction pat with
  | nil =>
      intro t n h
      simp [patMatch] at h
      omega
  | cons a as ih =>
      intro t n h
      cases t with
      | nil => simp [patMatch] at h
      | cons c cs =>
          simp only [patMatch] at h
          split at h
          · rcases Option.map_eq_some'.mp h with ⟨m, hm, hn⟩
            have := ih cs m hm
            simp only [List.length_cons]
            omega
          · exact absurd h (by simp)

theorem litSpan_le :
    ∀ (e t : List Char) (n : Nat), litSpan e t = some n → n ≤ t.length := by
  intro e
  induction e with
  | nil =>
      intro t n h
      simp [litSpan] at h
      omega
  | cons c cs ih =>
      intro t n h
      cases t with
      | nil => simp [litSpan] at h
      | cons d ds =>
          simp only [litSpan] at h
          split at h
          · rcases Option.map_eq_some'.mp h with ⟨m, hm, hn⟩
            have := ih ds m hm
            simp only [List.length_cons]
            omega
          · exact absurd h (by simp)

theorem matchSpan_le (rx : Bool) (e t : List Char) (n : Nat)
    (h : matchSpan rx e t = some n) : n ≤ t.length := by
  unfold matchSpan at h
  split at h
  · exact patMatch_le _ _ _ h
  · exact litSpan_le _ _ _ h

theorem litSpan_self_append : ∀ (e rest : List Char), litSpan e (e ++ rest) = some e.length := by
  intro e
  induction e with
  | nil => intro rest; simp [litSpan]
  | cons c cs ih => intro rest; simp [litSpan, ih]

theorem matchOutput_eq_some (p : Process) (e : List Char) (rx : Bool) (n : Nat)
    (h : matchSpan rx e (unread (deliver p)) = some n) :
    matchOutput p e rx =
      (Except.ok ((unread (deliver p)).take n),
       { deliver p with cursor := p.cursor + n }) := by
  unfold matchOutput
  rw [h]
  rfl

theorem matchOutput_eq_none (p : Process) (e : List Char) (rx : Bool)
    (h : matchSpan rx e (unread (deliver p)) = none) :
    matchOutput p e rx =
      (Except.error ⟨"did not find expected output", some e, some (unread (deliver p)), none, none⟩,
       deliver p) := by
  unfold matchOutput
  rw [h]

/-- Claim C1: `reject` raises `AssertionFailure` exactly when new output is
available past the cursor within the timeout window (undelivered pending
bytes, or bytes already buffered past the cursor); in particular, on a
process that produces no new output within the window it returns normally,
leaving the process unchanged. -/
theorem reject_failure_iff (p : Process) :
    ((∃ f, (reject p).1 = Except.error f) ↔
      (p.cursor < p.buffer.length ∨ p.pending ≠ [])) ∧
    (p.cursor = p.buffer.length → p.pending = [] → reject p = (Except.ok (), p)) := by
  cases hb : hasPendingOutput p with
  | true =>
      have hout := (hasPendingOutput_iff p).mp hb
      refine ⟨⟨fun _ => hout, fun _ => ?_⟩, fun h1 h2 => ?_⟩
      · exact ⟨⟨"expected no output", none, some (unread (deliver p)), none, none⟩,
          by simp [reject, hb]⟩
      · rcases hout with h | h
        · omega
        · exact absurd h2 h
  | false =>
      have hout : ¬(p.cursor < p.buffer.length ∨ p.pending ≠ []) := by
        intro hc
        have := (hasPendingOutput_iff p).mpr hc
        rw [hb] at this
        exact Bool.noConfusion this
      refine ⟨⟨fun ⟨f, hf⟩ => ?_, fun hc => absurd hc hout⟩, fun _ _ => ?_⟩
      · simp [reject, hb] at hf
      · simp [reject, hb]

/-- Witness for C1: on a silent process `reject` succeeds; on a process with
pending output it fails. -/
theorem reject_failure_iff_witness :
    reject procSilent = (Except.ok (), procSilent) ∧
    (∃ f, (reject procFoo).1 = Except.error f) :=
  ⟨(reject_failure_iff procSilent).2 rfl rfl,
   (reject_failure_iff procFoo).1.mpr (Or.inr (by decide))⟩

/-- Claim C2: `kill` is idempotent and never an error — killing twice in a
row is the same as killing once, and killing a process that already exited
naturally is a no-op leaving the terminated state unchanged. -/
theorem kill_idempotent (p : Process) :
    kill (kill p) = kill p ∧ ∀ c, p.state = ProcState.exited c → kill p = p := by
  constructor
  · cases hs : p.state <;> simp [kill, hs]
  · intro c hc
    simp [kill, hc]

/-- Witness for C2: killing a live process twice equals killing it once, and
killing an already-exited process leaves it unchanged. -/
theorem kill_idempotent_witness :
    kill (kill procFoo) = kill procFoo ∧ kill procDone = procDone :=
  ⟨(kill_idempotent procFoo).1, (kill_idempotent procDone).2 0 rfl⟩

/-- Claim C4: when the actual next output does not match the expectation,
`stdout` raises `AssertionFailure` (carrying the expectation and the
observed text) and the lifecycle state is untouched: a process that was
alive before the call is still alive afterward — the failed assertion does
not auto-kill it. -/
theorem stdout_mismatch_keeps_alive (p : Process) (e : List Char) (rx : Bool)
    (h : matchSpan rx e (unread (deliver p)) = none) :
    (stdout p (some e) rx).1 =
      Except.error ⟨"did not find expected output", some e, some (unread (deliver p)), none, none⟩ ∧
    ((stdout p (some e) rx).2).state = p.state := by
  have hm := matchOutput_eq_none p e rx h
  constructor
  · show (matchOutput p e rx).1 = _
    rw [hm]
  · show ((matchOutput p e rx).2).state = p.state
    rw [hm]
    rfl

/-- Witness for C4: expecting `bar` from a child that wrote `foo` fails and
leaves the process running. -/
theorem stdout_mismatch_keeps_alive_witness :
    (stdout procFoo (some ['b', 'a', 'r']) false).1 =
      Except.error ⟨"did not find expected output", some ['b', 'a', 'r'],
        some (unread (deliver procFoo)), none, none⟩ ∧
    ((stdout procFoo (some ['b', 'a', 'r']) false).2).state = procFoo.state :=
  stdout_mismatch_keeps_alive procFoo ['b', 'a', 'r'] false (by decide)

/-- Claim C5: on a process that exits with code 1, `exit` with expected code
0 raises `AssertionFailure` whose payload carries expected 0 and actual 1,
while `exit` with no code returns 1 without raising. -/
theorem exit_code_assertion (p : Process) (h1 : p.state = ProcState.running)
    (h2 : p.exitsWith = some 1) :
    (exitCheck p (some 0)).1 =
      Except.error ⟨"exited with wrong code", none, none, some 0, some 1⟩ ∧
    (exitCheck p none).1 = Except.ok 1 := by
  have hw : waitExit p = (Except.ok 1, { deliver p with state := ProcState.exited 1 }) := by
    simp [waitExit, h1, h2]
  constructor
  · simp [exitCheck, hw]
  · simp [exitCheck, hw]

/-- Witness for C5, on a child exiting with code 1. -/
theorem exit_code_assertion_witness :
    (exitCheck procExit1 (some 0)).1 =
      Except.error ⟨"exited with wrong code", none, none, some 0, some 1⟩ ∧
    (exitCheck procExit1 none).1 = Except.ok 1 :=
  exit_code_assertion procExit1 rfl rfl

/-- Claim C6: `stdin` with `expectPrompt` on a process that has produced no
output yet fails with "expected a prompt" and leaves the process — in
particular its input channel log — completely unchanged. -/
theorem stdin_prompt_missing (p : Process) (line : List Char)
    (h1 : p.buffer = []) (h2 : p.pending = []) :
    stdin p line true = (Except.error (mkFailure "expected a prompt"), p) := by
  have hb : hasPendingOutput p = false := by
    simp [hasPendingOutput, h1, h2]
  simp [stdin, hb]

/-- Witness for C6, on a silent process. -/
theorem stdin_prompt_missing_witness :
    stdin procSilent ['b', 'a', 'r'] true =
      (Except.error (mkFailure "expected a prompt"), procSilent) :=
  stdin_prompt_missing procSilent ['b', 'a', 'r'] rfl rfl

/-- Claim C7: `stdout` with no expectation on a process that writes nothing
more before exiting returns the empty string without raising, and the
process is afterwards reported as exited (no longer running). -/
theorem stdout_none_silent_exit (p : Process) (c : Nat)
    (h1 : p.pending = []) (h2 : p.cursor = p.buffer.length)
    (h3 : p.exitsWith = some c) (h4 : p.state = ProcState.running) :
    (stdout p none true).1 = Except.ok [] ∧
    ((stdout p none true).2).state = ProcState.exited c := by
  have hobs : observeExit (deliver p) = { deliver p with state := ProcState.exited c } := by
    unfold observeExit
    simp only [deliver_state, deliver_exitsWith]
    rw [h3, h4]
  constructor
  · show Except.ok (awaitOutput p).1 = Except.ok []
    simp [awaitOutput, unread, h1, h2]
  · show ((awaitOutput p).2).state = ProcState.exited c
    unfold awaitOutput
    rw [hobs]

/-- Witness for C7: a child that writes nothing and exits with code 0. -/
theorem stdout_none_silent_exit_witness :
    (stdout (spawnProcess [] (some 0)) none true).1 = Except.ok [] ∧
    ((stdout (spawnProcess [] (some 0)) none true).2).state = ProcState.exited 0 :=
  stdout_none_silent_exit (spawnProcess [] (some 0)) 0 rfl rfl rfl rfl

/-- Claim C10: `main` unconditionally sets `args.local = True` before
choosing an execution path, and the later normalization steps never unset
it, so the branch at `if args.local:` always takes the local checking path;
the remote branch raising `NotImplementedError` is unreachable. -/
theorem main_always_local (a : Args) :
    chooseExecPath (normalizeArgs a) = ExecPath.localChecks := by
  cases a with
  | mk d o l v g => cases d <;> cases o <;> cases v <;> cases l <;> cases g <;> decide

theorem consumeAll_total :
    ∀ (es : List (List Char)) (p : Process),
      p.cursor ≤ p.buffer.length →
      p.buffer.drop p.cursor ++ p.pending = es.flatten →
      ∃ q, consumeAll p es = some (es, q) ∧
        q.buffer = p.buffer ++ p.pending ∧ q.cursor = q.buffer.length ∧
        q.pending = [] ∧ q.state = p.state := by
  intro es
  induction es with
  | nil =>
      intro p h1 h2
      obtain ⟨hd, hp⟩ : p.buffer.length ≤ p.cursor ∧ p.pending = [] := by simpa using h2
      refine ⟨p, rfl, ?_, ?_, hp, rfl⟩
      · rw [hp, List.append_nil]
      · omega
  | cons e es ih =>
      intro p h1 h2
      have htail : unread (deliver p) = e ++ es.flatten := by
        unfold unread
        simp only [deliver_buffer, deliver_cursor]
        rw [List.drop_append_of_le_length h1, h2]
        rfl
      have hspan : matchSpan false e (unread (deliver p)) = some e.length := by
        rw [htail]
        simp [matchSpan, litSpan_self_append]
      have hm := matchOutput_eq_some p e false e.length hspan
      have htake : (unread (deliver p)).take e.length = e := by
        rw [htail]
        exact List.take_left e es.flatten
      have hstep : stdout p (some e) false =
          (Except.ok e, { deliver p with cursor := p.cursor + e.length }) := by
        show matchOutput p e false = _
        rw [hm, htake]
      have hlen0 : (unread (deliver p)).length = e.length + es.flatten.length := by
        rw [htail]
        simp
      have hlen1 : (unread (deliver p)).length =
          (p.buffer.length + p.pending.length) - p.cursor := by
        unfold unread
        simp
      have hpre1 : ({ deliver p with cursor := p.cursor + e.length } : Process).cursor ≤
          ({ deliver p with cursor := p.cursor + e.length } : Process).buffer.length := by
        show p.cursor + e.length ≤ (p.buffer ++ p.pending).length
        simp only [List.length_append]
        omega
      have hpre2 : ({ deliver p with cursor := p.cursor + e.length } : Process).buffer.drop
            ({ deliver p with cursor := p.cursor + e.length } : Process).cursor ++
            ({ deliver p with cursor := p.cursor + e.length } : Process).pending = es.flatten := by
        show (p.buffer ++ p.pending).drop (p.cursor + e.length) ++ [] = es.flatten
        rw [List.append_nil, ← List.drop_drop]
        show (unread (deliver p)).drop e.length = es.flatten
        rw [htail]
        exact List.drop_left e es.flatten
      obtain ⟨r, hr1, hr2, hr3, hr4, hr5⟩ :=
        ih { deliver p with cursor := p.cursor + e.length } hpre1 hpre2
      refine ⟨r, ?_, ?_, hr3, hr4, ?_⟩
      · simp only [consumeAll, hstep, hr1]
      · rw [hr2]
        show (p.buffer ++ p.pending) ++ [] = p.buffer ++ p.pending
        rw [List.append_nil]
      · rw [hr5]
        rfl

/-- Claim C3: for every sequence of `stdout` expectation calls whose
expectations concatenate, in call order, to exactly the bytes the process
writes, every call succeeds consuming exactly its expectation, and after the
last call the cursor equals the length of the output buffer. -/
theorem stdout_sequence_roundtrip (es : List (List Char)) (code : Option Nat) :
    ∃ q, consumeAll (spawnProcess es.flatten code) es = some (es, q) ∧
      q.buffer = es.flatten ∧ q.cursor = q.buffer.length := by
  obtain ⟨q, ha, hb, hc, _, _⟩ :=
    consumeAll_total es (spawnProcess es.flatten code) (by simp [spawnProcess]) (by simp [spawnProcess])
  exact ⟨q, ha, by simpa using hb, hc⟩

/-- Claim C8: in regex mode a `stdout` match succeeds exactly when the
compiled pattern (whose wildcard is line-anchored: it never crosses a
newline) matches starting at the cursor position; the match need not
consume the entire remaining buffer, and on success the cursor advances
past the matched span only, so a subsequent match consumes the immediately
following bytes. -/
theorem stdout_regex_semantics (p : Process) (e : List Char) :
    (∀ n, patMatch (compilePattern e) (unread (deliver p)) = some n →
        stdout p (some e) true =
          (Except.ok ((unread (deliver p)).take n),
           { deliver p with cursor := p.cursor + n }) ∧
        n ≤ (unread (deliver p)).length) ∧
    (patMatch (compilePattern e) (unread (deliver p)) = none →
        (stdout p (some e) true).1 =
          Except.error ⟨"did not find expected output", some e,
            some (unread (deliver p)), none, none⟩) ∧
    (∀ n m e2, patMatch (compilePattern e) (unread (deliver p)) = some n →
        patMatch (compilePattern e2) ((unread (deliver p)).drop n) = some m →
        (stdout (stdout p (some e) true).2 (some e2) true).1 =
          Except.ok (((unread (deliver p)).drop n).take m)) := by
  refine ⟨?_, ?_, ?_⟩
  · intro n h
    have hs : matchSpan true e (unread (deliver p)) = some n := by
      simpa [matchSpan] using h
    exact ⟨matchOutput_eq_some p e true n hs, patMatch_le _ _ _ h⟩
  · intro h
    have hs : matchSpan true e (unread (deliver p)) = none := by
      simpa [matchSpan] using h
    show (matchOutput p e true).1 = _
    rw [matchOutput_eq_none p e true hs]
  · intro n m e2 h1 h2
    have hs1 : matchSpan true e (unread (deliver p)) = some n := by
      simpa [matchSpan] using h1
    have hm := matchOutput_eq_some p e true n hs1
    have hsnd : (stdout p (some e) true).2 = { deliver p with cursor := p.cursor + n } := by
      show (matchOutput p e true).2 = _
      rw [hm]
    rw [hsnd]
    have hu : unread (deliver ({ deliver p with cursor := p.cursor + n } : Process)) =
        (unread (deliver p)).drop n := by
      show ((p.buffer ++ p.pending) ++ []).drop (p.cursor + n) =
        ((p.buffer ++ p.pending).drop p.cursor).drop n
      rw [List.append_nil, ← List.drop_drop]
    have hs2 : matchSpan true e2
        (unread (deliver ({ deliver p with cursor := p.cursor + n } : Process))) = some m := by
      rw [hu]
      simpa [matchSpan] using h2
    have hm2 := matchOutput_eq_some { deliver p with cursor := p.cursor + n } e2 true m hs2
    show (matchOutput { deliver p with cursor := p.cursor + n } e2 true).1 = _
    rw [hm2, hu]

/-- Witness for C8: on output `foo` plus newline, `.o.` matches the first
three bytes and a following match consumes the newline. -/
theorem stdout_regex_semantics_witness :
    (stdout (stdout procFoo (some ['.', 'o', '.']) true).2 (some ['\n']) true).1 =
      Except.ok (((unread (deliver procFoo)).drop 3).take 1) :=
  (stdout_regex_semantics procFoo ['.', 'o', '.']).2.2 3 1 ['\n'] (by decide) (by decide)

theorem applyOp_buffer (p : Process) (op : FacadeOp) :
    ∃ t, (applyOp p op).buffer = p.buffer ++ t := by
  cases op with
  | stdinOp l pr =>
      refine ⟨[], ?_⟩
      show ((stdin p l pr).2).buffer = p.buffer ++ []
      unfold stdin
      split
      · simp
      · split <;> simp
  | stdoutOp e rx =>
      cases e with
      | none =>
          refine ⟨p.pending, ?_⟩
          show ((awaitOutput p).2).buffer = _
          simp [awaitOutput]
      | some exp =>
          refine ⟨p.pending, ?_⟩
          show ((matchOutput p exp rx).2).buffer = _
          unfold matchOutput
          split <;> simp
  | exitOp c =>
      show ∃ t, ((waitExit p).2).buffer = p.buffer ++ t
      cases hst : p.state with
      | exited c0 => exact ⟨[], by simp [waitExit, hst]⟩
      | killed => exact ⟨[], by simp [waitExit, hst]⟩
      | running =>
          cases hex : p.exitsWith with
          | none => exact ⟨[], by simp [waitExit, hst, hex]⟩
          | some cv => exact ⟨p.pending, by simp [waitExit, hst, hex]⟩
  | killOp =>
      cases hst : p.state <;> exact ⟨[], by simp [applyOp, kill, hst]⟩
  | rejectOp =>
      cases hb : hasPendingOutput p with
      | true => exact ⟨p.pending, by simp [applyOp, reject, hb]⟩
      | false => exact ⟨[], by simp [applyOp, reject, hb]⟩

theorem applyOp_cursor (p : Process) (op : FacadeOp) (h : p.cursor ≤ p.buffer.length) :
    p.cursor ≤ (applyOp p op).cursor ∧ (applyOp p op).cursor ≤ (applyOp p op).buffer.length := by
  cases op with
  | stdinOp l pr =>
      show p.cursor ≤ ((stdin p l pr).2).cursor ∧
        ((stdin p l pr).2).cursor ≤ ((stdin p l pr).2).buffer.length
      unfold stdin
      split
      · exact ⟨Nat.le_refl _, h⟩
      · split
        · exact ⟨Nat.le_refl _, h⟩
        · exact ⟨Nat.le_refl _, h⟩
  | stdoutOp e rx =>
      cases e with
      | none =>
          constructor
          · show p.cursor ≤ ((awaitOutput p).2).cursor
            simp [awaitOutput]
            omega
          · show ((awaitOutput p).2).cursor ≤ ((awaitOutput p).2).buffer.length
            simp [awaitOutput]
      | some exp =>
          cases hsp : matchSpan rx exp (unread (deliver p)) with
          | some n =>
              have hm := matchOutput_eq_some p exp rx n hsp
              have hle := matchSpan_le rx exp _ n hsp
              have hlen : (unread (deliver p)).length =
                  (p.buffer.length + p.pending.length) - p.cursor := by
                unfold unread
                simp
              have hsnd : (applyOp p (FacadeOp.stdoutOp (some exp) rx)) =
                  { deliver p with cursor := p.cursor + n } := by
                show (matchOutput p exp rx).2 = _
                rw [hm]
              rw [hsnd]
              constructor
              · exact Nat.le_add_right _ _
              · show p.cursor + n ≤ (p.buffer ++ p.pending).length
                simp only [List.length_append]
                omega
          | none =>
              have hm := matchOutput_eq_none p exp rx hsp
              have hsnd : (applyOp p (FacadeOp.stdoutOp (some exp) rx)) = deliver p := by
                show (matchOutput p exp rx).2 = _
                rw [hm]
              rw [hsnd]
              constructor
              · exact Nat.le_refl _
              · show p.cursor ≤ (p.buffer ++ p.pending).length
                simp only [List.length_append]
                omega
  | exitOp c =>
      show p.cursor ≤ ((waitExit p).2).cursor ∧
        ((waitExit p).2).cursor ≤ ((waitExit p).2).buffer.length
      cases hst : p.state with
      | exited c0 => exact ⟨by simp [waitExit, hst], by simpa [waitExit, hst] using h⟩
      | killed => exact ⟨by simp [waitExit, hst], by simpa [waitExit, hst] using h⟩
      | running =>
          cases hex : p.exitsWith with
          | none => exact ⟨by simp [waitExit, hst, hex], by simpa [waitExit, hst, hex] using h⟩
          | some cv =>
              refine ⟨?_, ?_⟩ <;> simp [waitExit, hst, hex]
              omega
  | killOp =>
      show p.cursor ≤ (kill p).cursor ∧ (kill p).cursor ≤ (kill p).buffer.length
      cases hst : p.state <;>
        exact ⟨by simp [kill, hst], by simpa [kill, hst] using h⟩
  | rejectOp =>
      cases hb : hasPendingOutput p with
      | true =>
          have hsnd : (applyOp p FacadeOp.rejectOp) = deliver p := by
            show (reject p).2 = _
            simp [reject, hb]
          rw [hsnd]
          refine ⟨Nat.le_refl _, ?_⟩
          show p.cursor ≤ (p.buffer ++ p.pending).length
          simp only [List.length_append]
          omega
      | false =>
          have hsnd : (applyOp p FacadeOp.rejectOp) = p := by
            show (reject p).2 = _
            simp [reject, hb]
          rw [hsnd]
          exact ⟨Nat.le_refl _, h⟩

/-- Claim C9: over every sequence of facade operations — taking the
post-state whether or not each operation raised — the read cursor never
moves backward, the cursor never exceeds the length of the output buffer,
and the output buffer only ever grows by appending. -/
theorem facade_invariants (p : Process) (ops : List FacadeOp)
    (h : p.cursor ≤ p.buffer.length) :
    p.cursor ≤ (runOps p ops).cursor ∧
    (runOps p ops).cursor ≤ (runOps p ops).buffer.length ∧
    ∃ t, (runOps p ops).buffer = p.buffer ++ t := by
  induction ops generalizing p with
  | nil => exact ⟨Nat.le_refl _, h, [], by simp [runOps]⟩
  | cons op ops ih =>
      have hrun : runOps p (op :: ops) = runOps (applyOp p op) ops := rfl
      rw [hrun]
      have hstep := applyOp_cursor p op h
      have hrec := ih (applyOp p op) hstep.2
      refine ⟨Nat.le_trans hstep.1 hrec.1, hrec.2.1, ?_⟩
      rcases applyOp_buffer p op with ⟨t1, ht1⟩
      rcases hrec.2.2 with ⟨t2, ht2⟩
      exact ⟨t1 ++ t2, by rw [ht2, ht1, List.append_assoc]⟩

/-- Witness for C9, on a sample process and operation sequence. -/
theorem facade_invariants_witness :
    procFoo.cursor ≤ (runOps procFoo opsSample).cursor ∧
    (runOps procFoo opsSample).cursor ≤ (runOps procFoo opsSample).buffer.length :=
  ⟨(facade_invariants procFoo opsSample (by decide)).1,
   (facade_invariants procFoo opsSample (by decide)).2.1⟩

end Check50
